import Mathlib

/-!
Shallow embedding of the HubMap training/inference orchestration code
(src/code/inference/main.py and src/code/training/main.py) and proofs of
the specification claims about it.

Images, dataframe rows and prediction tensors are opaque to the
orchestration logic, so they are represented by natural-number handles.
The deep-learning collaborators (model inference, threshold tuning,
dice scoring) are fields of an environment structure: the code under
verification only routes their results.
-/

namespace HubMap

/-! ### inference/main.py : validate_inf -/

/-- Collaborators used by inference/main.py validate_inf.
Images and predictions are opaque handles (naturals); thresholds and
scores are rationals.
- predictFull : predict_entire_mask
- predictDown : predict_entire_mask_downscaled
- tweak       : utils.metrics.tweak_threshold on (image mask, pred),
                returning (threshold, score)
- diceFull    : dice_scores_img of (pred > thr) against the image truth
- diceResized : dice_scores_img of threshold_resize_torch(pred, thr)
                against the image truth -/
structure InfEnv where
  predictFull : ℕ → ℕ
  predictDown : ℕ → ℕ
  tweak : ℕ → ℕ → ℚ × ℚ
  diceFull : ℕ → ℕ → ℚ → ℚ
  diceResized : ℕ → ℕ → ℚ → ℚ

/-- One loop iteration's observable record in validate_inf:
whether tweak_threshold ran, the per-image (threshold, score) pair the
branch produced, the threshold actually used to binarize, and the final
dice score appended to scores. -/
structure ViRecord where
  tunerRan : Bool
  threshold : ℚ
  tuneScore : ℚ
  usedThreshold : ℚ
  score : ℚ
deriving DecidableEq

/-- validate_inf's image loop (inference/main.py lines 50-106).

Per iteration: predict (full-size or downscaled branch); in the
downscaled branch run tweak_threshold, in the full-size branch set
threshold, score = 0.4, 0 with no tuning; then execute
  global_threshold = global_threshold if global_threshold is not None
                     else threshold
which rebinds the parameter, so the chosen value persists into all
later iterations (modelled by recursing with some gt2); binarize at
that value and append the dice score. 0.4 is the rational 2/5. -/
def validate_inf (env : InfEnv) (useFullSize : Bool) :
    Option ℚ → List ℕ → List ViRecord
  | _, [] => []
  | gt, img :: rest =>
    let pred := if useFullSize then env.predictFull img else env.predictDown img
    let tuned : Bool × ℚ × ℚ :=
      if useFullSize then (false, 2/5, 0)
      else (true, env.tweak img pred)
    let gt2 : ℚ :=
      match gt with
      | some g => g
      | none => tuned.2.1
    let score : ℚ :=
      if useFullSize then env.diceFull img pred gt2 else env.diceResized img pred gt2
    ⟨tuned.1, tuned.2.1, tuned.2.2, gt2, score⟩ ::
      validate_inf env useFullSize (some gt2) rest

/-- The scores list returned by validate_inf. -/
def validate_inf_scores (env : InfEnv) (useFullSize : Bool)
    (gt : Option ℚ) (imgs : List ℕ) : List ℚ :=
  (validate_inf env useFullSize gt imgs).map ViRecord.score

/-- Concrete environment exhibiting distinct per-image tuned thresholds:
image 0 tunes to 3/10, every other image tunes to 1/2; the dice
collaborators echo the threshold they were given, making the used
threshold observable in the score. -/
def envC1 : InfEnv :=
  ⟨fun i => i, fun i => i,
   fun img _ => if img = 0 then (3/10, 1/2) else (1/2, 1/2),
   fun _ _ t => t, fun _ _ t => t⟩

/-! ### training/main.py : validate -/

/-- Collaborator of training/main.py validate: plot_thresh_scores on the
image's (mask, prediction), returning (threshold, score). -/
structure TrainEnv where
  plotThresh : ℕ → ℚ × ℚ

/-- An element of the scores list built by training/main.py validate.
The loop body executes scores.append(scores): the appended element is
the scores list object itself, not a number. Cyclic Python values have
no direct counterpart here, so an appended self-reference is recorded
as the tag listSelf, while the per-image number the spec contract would
append is num. -/
inductive ScoresEntry where
  | num (q : ℚ)
  | listSelf
deriving DecidableEq

/-- training/main.py validate's image loop (lines 113-136), with its two
accumulating lists. Per image it computes
  threshold, score = plot_thresh_scores(...)
then thresholds.append(threshold) and scores.append(scores) — the
latter appends the list object itself (tag listSelf), not score. -/
def validate (env : TrainEnv) :
    List ℕ → List ScoresEntry → List ℚ → List ScoresEntry × List ℚ
  | [], scores, thresholds => (scores, thresholds)
  | img :: rest, scores, thresholds =>
    let t := (env.plotThresh img).1
    validate env rest (scores ++ [ScoresEntry.listSelf]) (thresholds ++ [t])

/-- Environment for the concrete evaluation of the scores-append bug:
every image scores (threshold, score) = (1/2, 4/5). -/
def envC2 : TrainEnv := ⟨fun _ => (1/2, 4/5)⟩

/-! ### training/main.py : k_fold -/

/-- The configuration fields k_fold's control flow reads:
config.selected_folds and the log_folder argument (only its None-ness
matters; the handle is a natural). -/
structure KConfig where
  selectedFolds : List ℕ
  logFolder : Option ℕ
deriving DecidableEq

/-- Observable outcome of k_fold: the enumeration indices of the folds
that were processed (in order), the cvs list of collected final-epoch
dice scores, the list handed to np.mean/np.std by the final report
print (none when the early return skipped it), and whether the early
return at lines 182-183 fired. -/
structure KFoldResult where
  processed : List ℕ
  cvs : List ℚ
  report : Option (List ℚ)
  earlyReturn : Bool
deriving DecidableEq

/-- pandas Series.unique: the distinct values in first-occurrence
order, as used for folds = df[config.cv_column].unique(). -/
def pdUnique (l : List ℕ) : List ℕ :=
  l.foldl (fun acc x => if x ∈ acc then acc else acc ++ [x]) []

/-- df_train = df[df[config.cv_column] != fold] (training/main.py line
158): the rows whose cv-column value differs from the fold's value.
Rows are opaque handles; cv reads the row's cv-column value. -/
def df_train (cv : ℕ → ℕ) (df : List ℕ) (fold : ℕ) : List ℕ :=
  df.filter (fun r => cv r != fold)

/-- df_val = df[df[config.cv_column] == fold] (training/main.py line
159): the rows whose cv-column value equals the fold's value. -/
def df_val (cv : ℕ → ℕ) (df : List ℕ) (fold : ℕ) : List ℕ :=
  df.filter (fun r => cv r == fold)

/-- k_fold's fold loop (training/main.py lines 154-186) over the
enumerated fold list, threading the processed-fold and cvs
accumulators. hist i is fold i's training-history dice column; the
loop appends its last entry, history.dice.values[-1], to cvs
(getLastD models the [-1] access; fit's history has one row per
trained epoch). After train/validate/model release it executes
  if log_folder is None or len(config.selected_folds) == 1:
      return meter
which ends the run before the final report. Falling off the loop
reaches the mean/std report over cvs. -/
def kFoldLoop (cfg : KConfig) (hist : ℕ → List ℚ) :
    List (ℕ × ℕ) → List ℕ → List ℚ → KFoldResult
  | [], proc, cvs => ⟨proc, cvs, some cvs, false⟩
  | (i, _fold) :: rest, proc, cvs =>
    if i ∈ cfg.selectedFolds then
      let cvs2 := cvs ++ [(hist i).getLastD 0]
      let proc2 := proc ++ [i]
      if cfg.logFolder = none ∨ cfg.selectedFolds.length = 1 then
        ⟨proc2, cvs2, none, true⟩
      else kFoldLoop cfg hist rest proc2 cvs2
    else kFoldLoop cfg hist rest proc cvs

/-- k_fold (training/main.py lines 141-188): enumerate the unique
cv-column values and run the fold loop with empty accumulators. -/
def k_fold (cfg : KConfig) (cv : ℕ → ℕ) (df : List ℕ)
    (hist : ℕ → List ℚ) : KFoldResult :=
  kFoldLoop cfg hist (pdUnique (df.map cv)).enum [] []

/-- Accelerator-memory events of k_fold's loop: construct i is the
define_model call inside train for fold i, release i is the
del model; torch.cuda.empty_cache() pair at lines 175-176. -/
inductive Ev where
  | construct (i : ℕ)
  | release (i : ℕ)
deriving DecidableEq

/-- Ev discriminators, used to count live models along the trace. -/
def Ev.isConstruct : Ev → Bool
  | .construct _ => true
  | .release _ => false

def Ev.isRelease : Ev → Bool
  | .construct _ => false
  | .release _ => true

/-- The sequence of model construct/release events k_fold's loop emits,
in program order: each processed fold constructs its model (inside
train), later deletes it and empties the accelerator cache, and only
then either early-returns or moves to the next fold. -/
def kFoldTraceLoop (cfg : KConfig) : List (ℕ × ℕ) → List Ev
  | [] => []
  | (i, _fold) :: rest =>
    if i ∈ cfg.selectedFolds then
      if cfg.logFolder = none ∨ cfg.selectedFolds.length = 1 then
        [Ev.construct i, Ev.release i]
      else Ev.construct i :: Ev.release i :: kFoldTraceLoop cfg rest
    else kFoldTraceLoop cfg rest

/-- Model construct/release trace of a k_fold run. -/
def k_fold_trace (cfg : KConfig) (cv : ℕ → ℕ) (df : List ℕ) : List Ev :=
  kFoldTraceLoop cfg (pdUnique (df.map cv)).enum

/-! ### inference/main.py : k_fold_inf -/

/-- k_fold_inf's fold loop (inference/main.py lines 129-161): for each
enumerated fold with index in config.selected_folds, build the fold
model, load its weights and extend scores with validate_inf's
per-image scores (scores += validate_inf(...)). perFold i is the
scores list validate_inf returns for fold i's validation images.
There is no early return (the break is commented out). -/
def kFoldInfLoop (cfg : KConfig) (perFold : ℕ → List ℚ) :
    List (ℕ × ℕ) → List ℕ → List ℚ → List ℕ × List ℚ
  | [], proc, scores => (proc, scores)
  | (i, _fold) :: rest, proc, scores =>
    if i ∈ cfg.selectedFolds then
      kFoldInfLoop cfg perFold rest (proc ++ [i]) (scores ++ perFold i)
    else kFoldInfLoop cfg perFold rest proc scores

/-- k_fold_inf (inference/main.py lines 111-162), returning the
processed fold indices and the concatenated scores. -/
def k_fold_inf (cfg : KConfig) (cv : ℕ → ℕ) (df : List ℕ)
    (perFold : ℕ → List ℚ) : List ℕ × List ℚ :=
  kFoldInfLoop cfg perFold (pdUnique (df.map cv)).enum [] []

/-- The enumerated folds that pass the loop guard
i in config.selected_folds, in enumeration order. Used to state the
characterizations of the fold loops. -/
def selFilter (cfg : KConfig) (pairs : List (ℕ × ℕ)) : List (ℕ × ℕ) :=
  pairs.filter (fun q => q.1 ∈ cfg.selectedFolds)

/-! ### Fallible skeletons

Neither source file contains a try/except: any exception raised inside
a loop body aborts the whole call. The following embeddings keep each
function's exact control flow (loop structure, threaded state, guard
and early return) but let the loop body fail, Python exceptions
becoming Except.error values that the code — having no handler — can
only pass along. -/

/-- validate_inf with a fallible loop body. step gt img performs one
iteration of the image loop from global_threshold state gt (predict,
tune, binarize, score), returning the appended score and the possibly
rebound global_threshold; any exception inside it aborts the call. -/
def validate_inf_E {ε : Type} (step : Option ℚ → ℕ → Except ε (ℚ × Option ℚ)) :
    Option ℚ → List ℕ → Except ε (List ℚ)
  | _, [] => Except.ok []
  | gt, img :: rest =>
    match step gt img with
    | Except.error e => Except.error e
    | Except.ok (s, gt2) =>
      match validate_inf_E step gt2 rest with
      | Except.error e => Except.error e
      | Except.ok ss => Except.ok (s :: ss)

/-- The global_threshold state validate_inf's loop reaches after a list
of images, or the first error raised on the way. -/
def viState {ε : Type} (step : Option ℚ → ℕ → Except ε (ℚ × Option ℚ)) :
    Option ℚ → List ℕ → Except ε (Option ℚ)
  | gt, [] => Except.ok gt
  | gt, img :: rest =>
    match step gt img with
    | Except.error e => Except.error e
    | Except.ok (_, gt2) => viState step gt2 rest

/-- training/main.py validate with a fallible loop body. vstep img is
one iteration (predict, plot_thresh_scores), returning the
(threshold, score) pair; the loop appends the self-referencing scores
entry and the threshold exactly as the infallible embedding does. -/
def validate_E {ε : Type} (vstep : ℕ → Except ε (ℚ × ℚ)) :
    List ℕ → Except ε (List ScoresEntry × List ℚ)
  | [] => Except.ok ([], [])
  | img :: rest =>
    match vstep img with
    | Except.error e => Except.error e
    | Except.ok (t, _s) =>
      match validate_E vstep rest with
      | Except.error e => Except.error e
      | Except.ok (sc, th) => Except.ok (ScoresEntry.listSelf :: sc, t :: th)

/-- k_fold with a fallible fold body. foldBody i is fold i's
train-then-validate work, returning the final-epoch dice score
appended to cvs; an exception in it aborts the whole k_fold call,
discarding cvs. Early return and guard as in kFoldLoop. -/
def k_fold_E {ε : Type} (cfg : KConfig) (foldBody : ℕ → Except ε ℚ) :
    List (ℕ × ℕ) → List ℚ → Except ε (List ℚ)
  | [], cvs => Except.ok cvs
  | (i, _fold) :: rest, cvs =>
    if i ∈ cfg.selectedFolds then
      match foldBody i with
      | Except.error e => Except.error e
      | Except.ok s =>
        if cfg.logFolder = none ∨ cfg.selectedFolds.length = 1 then
          Except.ok (cvs ++ [s])
        else k_fold_E cfg foldBody rest (cvs ++ [s])
    else k_fold_E cfg foldBody rest cvs

/-- k_fold_inf with a fallible fold body. foldScores i is fold i's
model build, weight load and validate_inf call, returning that fold's
per-image scores list. -/
def k_fold_inf_E {ε : Type} (cfg : KConfig) (foldScores : ℕ → Except ε (List ℚ)) :
    List (ℕ × ℕ) → List ℚ → Except ε (List ℚ)
  | [], scores => Except.ok scores
  | (i, _fold) :: rest, scores =>
    if i ∈ cfg.selectedFolds then
      match foldScores i with
      | Except.error e => Except.error e
      | Except.ok ss => k_fold_inf_E cfg foldScores rest (scores ++ ss)
    else k_fold_inf_E cfg foldScores rest scores

/-- Concrete configuration that avoids the early return: log_folder
present and two selected folds. -/
def cfgA : KConfig := ⟨[0, 2], some 0⟩

/-- Concrete configuration that triggers the early return with more
than one selected fold: log_folder is None. -/
def cfgB : KConfig := ⟨[0, 1], none⟩

/-- Always-failing loop bodies for the error-propagation witnesses;
the error value is the handle 7. -/
def stepF : Option ℚ → ℕ → Except ℕ (ℚ × Option ℚ) := fun _ _ => Except.error 7

def vstepF : ℕ → Except ℕ (ℚ × ℚ) := fun _ => Except.error 7

def foldBodyF : ℕ → Except ℕ ℚ := fun _ => Except.error 7

def foldScoresF : ℕ → Except ℕ (List ℚ) := fun _ => Except.error 7

/-! ### Theorems -/

/-- Once validate_inf's global_threshold variable holds a value v, every
remaining iteration binarizes at v: the rebinding line keeps a non-None
value unchanged. Shared by the analyses of the full-size and the
downscaled branch. -/
theorem validate_inf_some_used (env : InfEnv) (ufs : Bool) (v : ℚ) :
    ∀ imgs : List ℕ, ∀ r ∈ validate_inf env ufs (some v) imgs,
      r.usedThreshold = v := by
  intro imgs
  induction imgs with
  | nil => intro r hr; simp [validate_inf] at hr
  | cons img rest ih =>
    intro r hr
    simp only [validate_inf, List.mem_cons] at hr
    rcases hr with h | h
    · subst h; rfl
    · exact ih r h

/-- C1 (corrected): concrete refutation of per-image thresholds. In
envC1 image 0 tunes to 3/10 and image 1 tunes to 1/2, yet with
use_full_size=False and global_threshold=None the run binarizes image 1
at 3/10 — image 0's tuned value — not at image 1's own 1/2: the
rebinding of the global_threshold parameter on the first iteration
latches image 0's threshold for the rest of the loop. -/
theorem validate_inf_own_threshold_cex :
    ((validate_inf envC1 false none [0, 1]).map
        (fun r => (r.threshold, r.usedThreshold)) =
      [(3/10, 3/10), (1/2, 3/10)]) ∧
    ¬ (∀ r ∈ validate_inf envC1 false none [0, 1],
        r.usedThreshold = r.threshold) := by
  refine ⟨rfl, fun h => ?_⟩
  have h2 := h ⟨true, 1/2, 1/2, 3/10, 3/10⟩
    (List.Mem.tail _ (List.Mem.head _))
  norm_num at h2

/-- C1 (amended): in validate_inf with use_full_size=False, when
global_threshold is a float every image is binarized at that value;
when it is None, the first image is binarized at its own tuned
threshold and every image (the first included) is binarized at the
FIRST image's tuned threshold, because the parameter is rebound on the
first iteration; so the threshold used for image j depends only on
global_threshold and image 0's tuning result. -/
theorem validate_inf_threshold_latch (env : InfEnv) (v : ℚ)
    (img0 : ℕ) (imgs rest : List ℕ) :
    (∀ r ∈ validate_inf env false (some v) imgs, r.usedThreshold = v) ∧
    ((validate_inf env false none (img0 :: rest)).head?.map
        (fun r => (r.threshold, r.usedThreshold)) =
      some ((env.tweak img0 (env.predictDown img0)).1,
            (env.tweak img0 (env.predictDown img0)).1)) ∧
    (∀ r ∈ validate_inf env false none (img0 :: rest),
        r.usedThreshold = (env.tweak img0 (env.predictDown img0)).1) := by
  refine ⟨validate_inf_some_used env false v imgs, rfl, ?_⟩
  intro r hr
  simp only [validate_inf, List.mem_cons] at hr
  rcases hr with h | h
  · subst h; rfl
  · exact validate_inf_some_used env false _ rest r h

/-- Witness for C1's amended theorem: in envC1, image 1's record of the
None-run (image 1 tunes to 1/2) is binarized at image 0's tuned
threshold 3/10. -/
theorem validate_inf_threshold_latch_witness :
    (⟨true, 1/2, 1/2, 3/10, 3/10⟩ : ViRecord).usedThreshold =
      (envC1.tweak 0 (envC1.predictDown 0)).1 :=
  (validate_inf_threshold_latch envC1 (7/10) 0 [1] [1]).2.2
    ⟨true, 1/2, 1/2, 3/10, 3/10⟩ (List.Mem.tail _ (List.Mem.head _))

/-- C10 (confirmed): in validate_inf with use_full_size=True the tuner
never runs — every iteration takes the branch threshold, score = 0.4, 0
(0.4 = 2/5) — and with global_threshold=None every full-size image is
binarized at 0.4 (the first iteration latches 0.4, which is also each
image's branch constant). -/
theorem validate_inf_full_size_no_tuning (env : InfEnv) (gt : Option ℚ)
    (imgs : List ℕ) :
    (∀ r ∈ validate_inf env true gt imgs,
        r.tunerRan = false ∧ r.threshold = 2/5 ∧ r.tuneScore = 0) ∧
    (∀ r ∈ validate_inf env true none imgs, r.usedThreshold = 2/5) := by
  constructor
  · induction imgs generalizing gt with
    | nil => intro r hr; simp [validate_inf] at hr
    | cons img rest ih =>
      intro r hr
      simp only [validate_inf, List.mem_cons] at hr
      rcases hr with h | h
      · subst h; exact ⟨rfl, rfl, rfl⟩
      · exact ih _ r h
  · cases imgs with
    | nil => intro r hr; simp [validate_inf] at hr
    | cons img rest =>
      intro r hr
      simp only [validate_inf, List.mem_cons] at hr
      rcases hr with h | h
      · subst h; rfl
      · exact validate_inf_some_used env true (2/5) rest r h

/-- Witness for C10: concrete full-size run over one image, whose
single record is ⟨false, 2/5, 0, 2/5, 2/5⟩. -/
theorem validate_inf_full_size_no_tuning_witness :
    ((⟨false, 2/5, 0, 2/5, 2/5⟩ : ViRecord).tunerRan = false ∧
      (⟨false, 2/5, 0, 2/5, 2/5⟩ : ViRecord).threshold = 2/5 ∧
      (⟨false, 2/5, 0, 2/5, 2/5⟩ : ViRecord).tuneScore = 0) ∧
    (⟨false, 2/5, 0, 2/5, 2/5⟩ : ViRecord).usedThreshold = 2/5 :=
  ⟨(validate_inf_full_size_no_tuning envC1 none [3]).1
      ⟨false, 2/5, 0, 2/5, 2/5⟩ (List.Mem.head _),
   (validate_inf_full_size_no_tuning envC1 none [3]).2
      ⟨false, 2/5, 0, 2/5, 2/5⟩ (List.Mem.head _)⟩

/-- C2 (code_bug): evaluating training/main.py validate on a single
validation image whose plot_thresh_scores result is (1/2, 4/5). The
loop body's scores.append(scores) appends the scores list object
itself, so the returned scores list is [the list itself] — modelled by
the listSelf tag — and not [4/5], the per-image score the spec's
corrected contract requires; the thresholds list is built correctly. -/
theorem validate_scores_self_append :
    (validate envC2 [0] [] []).1 = [ScoresEntry.listSelf] ∧
    (validate envC2 [0] [] []).1 ≠ [ScoresEntry.num (4/5)] ∧
    (validate envC2 [0] [] []).2 = [1/2] :=
  ⟨rfl, by decide, rfl⟩

/-- When the early-return condition is false (log_folder present and
more than one — or zero — selected folds), k_fold's loop runs to the
end of the fold list: it processes every guarded fold, collects one
final-epoch score per processed fold, and reaches the report. -/
theorem kFoldLoop_no_early (cfg : KConfig) (hist : ℕ → List ℚ)
    (hlog : cfg.logFolder ≠ none) (hsel : cfg.selectedFolds.length ≠ 1) :
    ∀ (pairs : List (ℕ × ℕ)) (proc : List ℕ) (cvs : List ℚ),
      kFoldLoop cfg hist pairs proc cvs =
        ⟨proc ++ (selFilter cfg pairs).map Prod.fst,
         cvs ++ (selFilter cfg pairs).map (fun q => (hist q.1).getLastD 0),
         some (cvs ++ (selFilter cfg pairs).map
            (fun q => (hist q.1).getLastD 0)),
         false⟩ := by
  intro pairs
  induction pairs with
  | nil => intro proc cvs; simp [kFoldLoop, selFilter]
  | cons q rest ih =>
    intro proc cvs
    obtain ⟨i, f⟩ := q
    have hcond : ¬ (cfg.logFolder = none ∨ cfg.selectedFolds.length = 1) := by
      rintro (h1 | h2)
      · exact hlog h1
      · exact hsel h2
    by_cases h : i ∈ cfg.selectedFolds
    · simp only [kFoldLoop, if_pos h, if_neg hcond, ih]
      simp [selFilter, List.filter_cons, h, List.append_assoc]
    · simp only [kFoldLoop, if_neg h, ih]
      simp [selFilter, List.filter_cons, h]

/-- When the early-return condition holds (log_folder None or exactly
one selected fold), k_fold's loop stops right after the first guarded
fold: only that fold is processed and the report is skipped; if no
fold passes the guard the loop still runs to the end and reports. -/
theorem kFoldLoop_early (cfg : KConfig) (hist : ℕ → List ℚ)
    (hcond : cfg.logFolder = none ∨ cfg.selectedFolds.length = 1) :
    ∀ (pairs : List (ℕ × ℕ)) (proc : List ℕ) (cvs : List ℚ),
      kFoldLoop cfg hist pairs proc cvs =
        match selFilter cfg pairs with
        | [] => ⟨proc, cvs, some cvs, false⟩
        | q :: _ =>
          ⟨proc ++ [q.1], cvs ++ [(hist q.1).getLastD 0], none, true⟩ := by
  intro pairs
  induction pairs with
  | nil => intro proc cvs; simp [kFoldLoop, selFilter]
  | cons q rest ih =>
    intro proc cvs
    obtain ⟨i, f⟩ := q
    by_cases h : i ∈ cfg.selectedFolds
    · simp only [kFoldLoop, if_pos h, if_pos hcond]
      simp [selFilter, List.filter_cons, h]
    · simp only [kFoldLoop, if_neg h, ih]
      simp [selFilter, List.filter_cons, h]

/-- k_fold_inf's loop never returns early: it processes every guarded
fold and concatenates the per-fold score lists in order. -/
theorem kFoldInfLoop_char (cfg : KConfig) (perFold : ℕ → List ℚ) :
    ∀ (pairs : List (ℕ × ℕ)) (proc : List ℕ) (scores : List ℚ),
      kFoldInfLoop cfg perFold pairs proc scores =
        (proc ++ (selFilter cfg pairs).map Prod.fst,
         scores ++ ((selFilter cfg pairs).map (fun q => perFold q.1)).flatten) := by
  intro pairs
  induction pairs with
  | nil => intro proc scores; simp [kFoldInfLoop, selFilter]
  | cons q rest ih =>
    intro proc scores
    obtain ⟨i, f⟩ := q
    by_cases h : i ∈ cfg.selectedFolds
    · simp only [kFoldInfLoop, if_pos h, ih]
      simp [selFilter, List.filter_cons, h, List.append_assoc]
    · simp only [kFoldInfLoop, if_neg h, ih]
      simp [selFilter, List.filter_cons, h]

/-- The guard-passing enumeration indices are exactly the selected
indices among 0..len-1, in ascending order. -/
theorem selFilter_enum_map_fst (cfg : KConfig) (l : List ℕ) :
    (selFilter cfg l.enum).map Prod.fst =
      (List.range l.length).filter (fun i => i ∈ cfg.selectedFolds) := by
  have h1 : selFilter cfg l.enum =
      l.enum.filter ((fun i => decide (i ∈ cfg.selectedFolds)) ∘ Prod.fst) := rfl
  rw [h1, ← List.filter_map, List.enum_eq_enumFrom, List.enumFrom_map_fst,
    ← List.range_eq_range']

/-- C3 (corrected): concrete refutation. With two selected folds
(indices 0 and 1, both present in the data) but log_folder = None,
k_fold early-returns after the first processed fold: the early return
is not restricted to the single-fold case. -/
theorem k_fold_early_return_cex :
    (k_fold cfgB id [0, 1] (fun _ => [1])).earlyReturn = true ∧
    cfgB.selectedFolds.length = 2 ∧
    (k_fold cfgB id [0, 1] (fun _ => [1])).processed = [0] := by decide

/-- C3 (amended): k_fold's early return fires after the first
processed fold exactly when log_folder is None or exactly one fold is
selected. When log_folder is present and the number of selected folds
differs from 1, no early return happens and the loop finishes; when
log_folder is None, any run that processes at least one fold
early-returns, however many folds are selected. -/
theorem k_fold_early_return_char (cfg : KConfig) (cv : ℕ → ℕ)
    (df : List ℕ) (hist : ℕ → List ℚ) :
    (cfg.logFolder ≠ none → cfg.selectedFolds.length ≠ 1 →
      (k_fold cfg cv df hist).earlyReturn = false) ∧
    ((cfg.logFolder = none ∨ cfg.selectedFolds.length = 1) →
      (k_fold cfg cv df hist).processed ≠ [] →
      (k_fold cfg cv df hist).earlyReturn = true) := by
  constructor
  · intro hlog hsel
    rw [k_fold, kFoldLoop_no_early cfg hist hlog hsel]
  · intro hcond hproc
    rw [k_fold, kFoldLoop_early cfg hist hcond] at hproc ⊢
    rcases hsf : selFilter cfg (pdUnique (df.map cv)).enum with _ | ⟨q, tl⟩
    · rw [hsf] at hproc; simp at hproc
    · rfl

/-- Witness for C3's amended theorem at the two concrete
configurations cfgA (no early return) and cfgB (early return). -/
theorem k_fold_early_return_char_witness :
    (k_fold cfgA id [0, 1] (fun _ => [1])).earlyReturn = false ∧
    (k_fold cfgB id [0, 1] (fun _ => [1])).earlyReturn = true :=
  ⟨(k_fold_early_return_char cfgA id [0, 1] (fun _ => [1])).1
      (by decide) (by decide),
   (k_fold_early_return_char cfgB id [0, 1] (fun _ => [1])).2
      (Or.inl rfl) (by decide)⟩

/-- C4 (corrected): concrete refutation. With a single selected fold
(and log_folder present) k_fold processes fold 0, then the early
return hands back the meter before the final mean/std report: the
report is not reached in every configuration. -/
theorem k_fold_report_skipped_cex :
    (k_fold ⟨[0], some 0⟩ id [0, 1] (fun _ => [1])).processed = [0] ∧
    (k_fold ⟨[0], some 0⟩ id [0, 1] (fun _ => [1])).report = none := by decide

/-- C4 (amended): k_fold reaches the final report — whose mean and
standard deviation are computed over exactly the collected cvs list —
if and only if it does not early-return, i.e. iff no fold was
processed or log_folder is present with a number of selected folds
different from 1; an early return skips the report. -/
theorem k_fold_report_iff (cfg : KConfig) (cv : ℕ → ℕ) (df : List ℕ)
    (hist : ℕ → List ℚ) :
    ((k_fold cfg cv df hist).earlyReturn = false ∧
       (k_fold cfg cv df hist).report = some (k_fold cfg cv df hist).cvs ∨
     (k_fold cfg cv df hist).earlyReturn = true ∧
       (k_fold cfg cv df hist).report = none) ∧
    ((k_fold cfg cv df hist).earlyReturn = false ↔
      ((k_fold cfg cv df hist).processed = [] ∨
        cfg.logFolder ≠ none ∧ cfg.selectedFolds.length ≠ 1)) := by
  by_cases hcond : cfg.logFolder = none ∨ cfg.selectedFolds.length = 1
  · rw [k_fold, kFoldLoop_early cfg hist hcond]
    rcases selFilter cfg (pdUnique (df.map cv)).enum with _ | ⟨q, tl⟩
    · exact ⟨Or.inl ⟨rfl, rfl⟩, by simp⟩
    · refine ⟨Or.inr ⟨rfl, rfl⟩, ?_⟩
      simp only [List.nil_append]
      constructor
      · intro h; exact absurd h (by simp)
      · rintro (h | ⟨hlog, hsel⟩)
        · exact absurd h (by simp)
        · rcases hcond with h1 | h2
          · exact absurd h1 hlog
          · exact absurd h2 hsel
  · push_neg at hcond
    rw [k_fold, kFoldLoop_no_early cfg hist hcond.1 hcond.2]
    exact ⟨Or.inl ⟨rfl, rfl⟩, by simp [hcond.1, hcond.2]⟩

/-- Witness for C4's amended theorem: at cfgB the report is skipped. -/
theorem k_fold_report_iff_witness :
    (k_fold cfgB id [0, 1] (fun _ => [1])).report = none := by
  rcases (k_fold_report_iff cfgB id [0, 1] (fun _ => [1])).1 with
    ⟨h1, _⟩ | ⟨_, h2⟩
  · exact absurd h1 (by decide)
  · exact h2

/-- C6 (corrected): concrete refutation. With folds 0 and 1 both
selected but log_folder = None, k_fold processes only fold 0, not the
full selected set {0, 1}. -/
theorem k_fold_selected_folds_cex :
    (k_fold cfgB id [0, 1] (fun _ => [1])).processed = [0] ∧
    (List.range (pdUnique ([0, 1].map id)).length).filter
      (fun i => i ∈ cfgB.selectedFolds) = [0, 1] := by decide

/-- C6 (amended): k_fold_inf always processes exactly the folds whose
enumeration index lies in config.selected_folds, in ascending index
order over the unique cv-column values; k_fold does the same when
log_folder is present and the number of selected folds differs from 1,
but in the early-return configurations it processes only the first
selected fold (the one-element front of that list). Unselected folds
are never processed by either. -/
theorem k_fold_processed_folds (cfg : KConfig) (cv : ℕ → ℕ) (df : List ℕ)
    (hist : ℕ → List ℚ) (perFold : ℕ → List ℚ) :
    (k_fold_inf cfg cv df perFold).1 =
      (List.range (pdUnique (df.map cv)).length).filter
        (fun i => i ∈ cfg.selectedFolds) ∧
    (cfg.logFolder ≠ none → cfg.selectedFolds.length ≠ 1 →
      (k_fold cfg cv df hist).processed =
        (List.range (pdUnique (df.map cv)).length).filter
          (fun i => i ∈ cfg.selectedFolds)) ∧
    ((cfg.logFolder = none ∨ cfg.selectedFolds.length = 1) →
      (k_fold cfg cv df hist).processed =
        ((List.range (pdUnique (df.map cv)).length).filter
          (fun i => i ∈ cfg.selectedFolds)).take 1) := by
  refine ⟨?_, ?_, ?_⟩
  · rw [k_fold_inf, kFoldInfLoop_char cfg perFold, ← selFilter_enum_map_fst]
    simp
  · intro hlog hsel
    rw [k_fold, kFoldLoop_no_early cfg hist hlog hsel,
      ← selFilter_enum_map_fst]
    simp
  · intro hcond
    rw [k_fold, kFoldLoop_early cfg hist hcond, ← selFilter_enum_map_fst]
    rcases selFilter cfg (pdUnique (df.map cv)).enum with _ | ⟨q, tl⟩
    · simp
    · simp

/-- Witness for C6's amended theorem at cfgA and cfgB over two folds. -/
theorem k_fold_processed_folds_witness :
    (k_fold_inf cfgB id [0, 1] (fun _ => [1])).1 =
      (List.range (pdUnique ([0, 1].map id)).length).filter
        (fun i => i ∈ cfgB.selectedFolds) ∧
    (k_fold cfgA id [0, 1] (fun _ => [1])).processed =
      (List.range (pdUnique ([0, 1].map id)).length).filter
        (fun i => i ∈ cfgA.selectedFolds) ∧
    (k_fold cfgB id [0, 1] (fun _ => [1])).processed =
      ((List.range (pdUnique ([0, 1].map id)).length).filter
        (fun i => i ∈ cfgB.selectedFolds)).take 1 :=
  ⟨(k_fold_processed_folds cfgB id [0, 1] (fun _ => [1]) (fun _ => [1])).1,
   (k_fold_processed_folds cfgA id [0, 1] (fun _ => [1]) (fun _ => [1])).2.1
      (by decide) (by decide),
   (k_fold_processed_folds cfgB id [0, 1] (fun _ => [1]) (fun _ => [1])).2.2
      (Or.inl rfl)⟩

/-- C9 (confirmed): each processed fold contributes exactly one entry
to cvs, namely its training history's final-epoch dice score
(history.dice.values[-1], modelled by getLastD), in processing order;
so cvs always has one score per processed fold. -/
theorem k_fold_cvs_per_fold (cfg : KConfig) (cv : ℕ → ℕ) (df : List ℕ)
    (hist : ℕ → List ℚ) :
    (k_fold cfg cv df hist).cvs =
      (k_fold cfg cv df hist).processed.map (fun i => (hist i).getLastD 0) ∧
    (k_fold cfg cv df hist).cvs.length =
      (k_fold cfg cv df hist).processed.length := by
  have hmain : (k_fold cfg cv df hist).cvs =
      (k_fold cfg cv df hist).processed.map (fun i => (hist i).getLastD 0) := by
    by_cases hcond : cfg.logFolder = none ∨ cfg.selectedFolds.length = 1
    · rw [k_fold, kFoldLoop_early cfg hist hcond]
      rcases selFilter cfg (pdUnique (df.map cv)).enum with _ | ⟨q, tl⟩
      · simp
      · simp
    · push_neg at hcond
      rw [k_fold, kFoldLoop_no_early cfg hist hcond.1 hcond.2]
      simp [List.map_map]
  exact ⟨hmain, by rw [hmain, List.length_map]⟩

/-- Witness for C9 at a concrete two-fold run. -/
theorem k_fold_cvs_per_fold_witness :
    (k_fold cfgA id [0, 1] (fun _ => [1])).cvs =
      (k_fold cfgA id [0, 1] (fun _ => [1])).processed.map
        (fun i => ((fun _ => ([1] : List ℚ)) i).getLastD 0) :=
  (k_fold_cvs_per_fold cfgA id [0, 1] (fun _ => [1])).1

/-- Without the early return, the event trace is one
construct-then-release block per guarded fold, in order. -/
theorem kFoldTraceLoop_no_early (cfg : KConfig)
    (hlog : cfg.logFolder ≠ none) (hsel : cfg.selectedFolds.length ≠ 1) :
    ∀ pairs : List (ℕ × ℕ),
      kFoldTraceLoop cfg pairs =
        ((selFilter cfg pairs).map
          (fun q => [Ev.construct q.1, Ev.release q.1])).flatten := by
  intro pairs
  induction pairs with
  | nil => simp [kFoldTraceLoop, selFilter]
  | cons q rest ih =>
    obtain ⟨i, f⟩ := q
    have hcond : ¬ (cfg.logFolder = none ∨ cfg.selectedFolds.length = 1) := by
      rintro (h1 | h2)
      · exact hlog h1
      · exact hsel h2
    by_cases h : i ∈ cfg.selectedFolds
    · simp only [kFoldTraceLoop, if_pos h, if_neg hcond, ih]
      simp [selFilter, List.filter_cons, h]
    · simp only [kFoldTraceLoop, if_neg h, ih]
      simp [selFilter, List.filter_cons, h]

/-- With the early return, the event trace is the single
construct-then-release block of the first guarded fold (and is empty
when no fold passes the guard): the release still precedes the
return. -/
theorem kFoldTraceLoop_early (cfg : KConfig)
    (hcond : cfg.logFolder = none ∨ cfg.selectedFolds.length = 1) :
    ∀ pairs : List (ℕ × ℕ),
      kFoldTraceLoop cfg pairs =
        (((selFilter cfg pairs).take 1).map
          (fun q => [Ev.construct q.1, Ev.release q.1])).flatten := by
  intro pairs
  induction pairs with
  | nil => simp [kFoldTraceLoop, selFilter]
  | cons q rest ih =>
    obtain ⟨i, f⟩ := q
    by_cases h : i ∈ cfg.selectedFolds
    · simp only [kFoldTraceLoop, if_pos h, if_pos hcond]
      simp [selFilter, List.filter_cons, h]
    · simp only [kFoldTraceLoop, if_neg h, ih]
      simp [selFilter, List.filter_cons, h]

/-- In any trace made of construct-then-release blocks, every program
point (prefix cut n) has at most one more construct than releases:
at most one model is ever alive. -/
theorem construct_release_take_bound (is : List ℕ) :
    ∀ n : ℕ,
      ((is.map (fun i => [Ev.construct i, Ev.release i])).flatten.take n).countP
          Ev.isConstruct ≤
        ((is.map (fun i => [Ev.construct i, Ev.release i])).flatten.take n).countP
          Ev.isRelease + 1 := by
  induction is with
  | nil => intro n; simp
  | cons i rest ih =>
    intro n
    match n with
    | 0 => simp
    | 1 => simp [List.countP_cons, Ev.isConstruct, Ev.isRelease]
    | (m + 2) =>
      have h := ih m
      simp only [List.map_cons, List.flatten_cons, List.cons_append,
        List.nil_append, List.take_succ_cons, List.countP_cons,
        Ev.isConstruct, Ev.isRelease] at h ⊢
      omega

/-- C7 (confirmed): in k_fold each processed fold's model is deleted
and the accelerator cache emptied before the next processed fold's
model is constructed — the event trace of a run is exactly one
construct-release block per processed fold, in processing order — and
along every prefix of the trace at most one model has been constructed
but not yet released: two fold models never exist simultaneously. -/
theorem k_fold_model_scoped_release (cfg : KConfig) (cv : ℕ → ℕ)
    (df : List ℕ) (hist : ℕ → List ℚ) :
    k_fold_trace cfg cv df =
      ((k_fold cfg cv df hist).processed.map
        (fun i => [Ev.construct i, Ev.release i])).flatten ∧
    ∀ n : ℕ,
      ((k_fold_trace cfg cv df).take n).countP Ev.isConstruct ≤
        ((k_fold_trace cfg cv df).take n).countP Ev.isRelease + 1 := by
  have htr : k_fold_trace cfg cv df =
      ((k_fold cfg cv df hist).processed.map
        (fun i => [Ev.construct i, Ev.release i])).flatten := by
    by_cases hcond : cfg.logFolder = none ∨ cfg.selectedFolds.length = 1
    · rw [k_fold_trace, kFoldTraceLoop_early cfg hcond, k_fold,
        kFoldLoop_early cfg hist hcond]
      rcases selFilter cfg (pdUnique (df.map cv)).enum with _ | ⟨q, tl⟩
      · simp
      · simp
    · push_neg at hcond
      rw [k_fold_trace, kFoldTraceLoop_no_early cfg hcond.1 hcond.2, k_fold,
        kFoldLoop_no_early cfg hist hcond.1 hcond.2]
      simp only [List.map_map, KFoldResult.mk.injEq, List.nil_append]
      rfl
  refine ⟨htr, fun n => ?_⟩
  rw [htr]
  exact construct_release_take_bound (k_fold cfg cv df hist).processed n

/-- Witness for C7 at a concrete two-fold run without early return. -/
theorem k_fold_model_scoped_release_witness :
    k_fold_trace cfgA id [0, 1] =
      ((k_fold cfgA id [0, 1] (fun _ => [1])).processed.map
        (fun i => [Ev.construct i, Ev.release i])).flatten ∧
    ((k_fold_trace cfgA id [0, 1]).take 1).countP Ev.isConstruct ≤
      ((k_fold_trace cfgA id [0, 1]).take 1).countP Ev.isRelease + 1 :=
  ⟨(k_fold_model_scoped_release cfgA id [0, 1] (fun _ => [1])).1,
   (k_fold_model_scoped_release cfgA id [0, 1] (fun _ => [1])).2 1⟩

/-- C8 (confirmed): for any fold value, the train split (rows whose
cv-column value differs from it) and the validation split (rows whose
cv-column value equals it) are disjoint, and together they are a
permutation of the whole input dataframe: every row lands in exactly
one of the two. -/
theorem k_fold_split_partition (cv : ℕ → ℕ) (df : List ℕ) (fold : ℕ) :
    (∀ r, ¬(r ∈ df_train cv df fold ∧ r ∈ df_val cv df fold)) ∧
    (df_train cv df fold ++ df_val cv df fold).Perm df := by
  constructor
  · rintro r ⟨h1, h2⟩
    rw [df_train, List.mem_filter] at h1
    rw [df_val, List.mem_filter] at h2
    simp only [bne_iff_ne, ne_eq, beq_iff_eq] at h1 h2
    exact h1.2 h2.2
  · exact List.perm_append_comm.trans
      (List.filter_append_perm (fun r => cv r == fold) df)

/-- Witness for C8: row 0 of the two-row frame [0, 1] under cv = id is
not in both splits of fold value 0. -/
theorem k_fold_split_partition_witness :
    ¬(0 ∈ df_train id [0, 1] 0 ∧ 0 ∈ df_val id [0, 1] 0) :=
  (k_fold_split_partition id [0, 1] 0).1 0

/-- If validate_inf's loop reaches an image whose body raises, the
whole call returns that error, whatever images follow. -/
theorem validate_inf_E_error {ε : Type}
    (step : Option ℚ → ℕ → Except ε (ℚ × Option ℚ)) (e : ε) :
    ∀ (pre : List ℕ) (gt gt2 : Option ℚ) (img : ℕ) (post : List ℕ),
      viState step gt pre = Except.ok gt2 →
      step gt2 img = Except.error e →
      validate_inf_E step gt (pre ++ img :: post) = Except.error e := by
  intro pre
  induction pre with
  | nil =>
    intro gt gt2 img post h1 h2
    simp only [viState, Except.ok.injEq] at h1
    subst h1
    simp [validate_inf_E, h2]
  | cons x rest ih =>
    intro gt gt2 img post h1 h2
    simp only [viState] at h1
    cases hx : step gt x with
    | error e2 => rw [hx] at h1; simp at h1
    | ok p =>
      obtain ⟨s, gtm⟩ := p
      rw [hx] at h1
      simp only [List.cons_append, validate_inf_E, hx, List.append_eq]
      rw [ih gtm gt2 img post h1 h2]

/-- Same propagation for the training-side validate loop. -/
theorem validate_E_error {ε : Type} (vstep : ℕ → Except ε (ℚ × ℚ)) (e : ε) :
    ∀ (pre : List ℕ) (img : ℕ) (post : List ℕ),
      (∀ x ∈ pre, (vstep x).isOk) →
      vstep img = Except.error e →
      validate_E vstep (pre ++ img :: post) = Except.error e := by
  intro pre
  induction pre with
  | nil =>
    intro img post _ h2
    simp [validate_E, h2]
  | cons x rest ih =>
    intro img post h1 h2
    have hx := h1 x (List.Mem.head _)
    cases hvx : vstep x with
    | error e2 => rw [hvx] at hx; simp [Except.toBool] at hx
    | ok p =>
      obtain ⟨t, s⟩ := p
      simp only [List.cons_append, validate_E, hvx, List.append_eq]
      rw [ih img post (fun y hy => h1 y (List.Mem.tail _ hy)) h2]

/-- k_fold propagation when no early return interferes: if every
earlier guarded fold succeeds and a guarded fold's body raises, the
whole k_fold call returns that error. -/
theorem k_fold_E_error {ε : Type} (cfg : KConfig)
    (foldBody : ℕ → Except ε ℚ) (e : ε)
    (hlog : cfg.logFolder ≠ none) (hsel : cfg.selectedFolds.length ≠ 1) :
    ∀ (pre : List (ℕ × ℕ)) (i f : ℕ) (post : List (ℕ × ℕ)) (cvs : List ℚ),
      (∀ q ∈ pre, q.1 ∈ cfg.selectedFolds → (foldBody q.1).isOk) →
      i ∈ cfg.selectedFolds → foldBody i = Except.error e →
      k_fold_E cfg foldBody (pre ++ (i, f) :: post) cvs = Except.error e := by
  intro pre
  have hcond : ¬ (cfg.logFolder = none ∨ cfg.selectedFolds.length = 1) := by
    rintro (h1 | h2)
    · exact hlog h1
    · exact hsel h2
  induction pre with
  | nil =>
    intro i f post cvs _ hi hfail
    simp only [List.nil_append, k_fold_E, if_pos hi]
    rw [hfail]
  | cons q rest ih =>
    intro i f post cvs h1 hi hfail
    obtain ⟨j, g⟩ := q
    by_cases hj : j ∈ cfg.selectedFolds
    · have hjok := h1 (j, g) (List.Mem.head _) hj
      cases hjb : foldBody j with
      | error e2 => rw [hjb] at hjok; simp [Except.toBool] at hjok
      | ok s =>
        simp only [List.cons_append, k_fold_E, if_pos hj, hjb, if_neg hcond]
        exact ih i f post (cvs ++ [s])
          (fun y hy => h1 y (List.Mem.tail _ hy)) hi hfail
    · simp only [List.cons_append, k_fold_E, if_neg hj]
      exact ih i f post cvs (fun y hy => h1 y (List.Mem.tail _ hy)) hi hfail

/-- k_fold propagation in the early-return configurations: an error in
the FIRST guarded fold (the only one that can raise there) still
aborts the call. -/
theorem k_fold_E_error_first {ε : Type} (cfg : KConfig)
    (foldBody : ℕ → Except ε ℚ) (e : ε) :
    ∀ (pre : List (ℕ × ℕ)) (i f : ℕ) (post : List (ℕ × ℕ)) (cvs : List ℚ),
      (∀ q ∈ pre, q.1 ∉ cfg.selectedFolds) →
      i ∈ cfg.selectedFolds → foldBody i = Except.error e →
      k_fold_E cfg foldBody (pre ++ (i, f) :: post) cvs = Except.error e := by
  intro pre
  induction pre with
  | nil =>
    intro i f post cvs _ hi hfail
    simp only [List.nil_append, k_fold_E, if_pos hi]
    rw [hfail]
  | cons q rest ih =>
    intro i f post cvs h1 hi hfail
    obtain ⟨j, g⟩ := q
    have hj := h1 (j, g) (List.Mem.head _)
    simp only [List.cons_append, k_fold_E, if_neg hj]
    exact ih i f post cvs (fun y hy => h1 y (List.Mem.tail _ hy)) hi hfail

/-- Same propagation for k_fold_inf's fold loop. -/
theorem k_fold_inf_E_error {ε : Type} (cfg : KConfig)
    (foldScores : ℕ → Except ε (List ℚ)) (e : ε) :
    ∀ (pre : List (ℕ × ℕ)) (i f : ℕ) (post : List (ℕ × ℕ)) (scores : List ℚ),
      (∀ q ∈ pre, q.1 ∈ cfg.selectedFolds → (foldScores q.1).isOk) →
      i ∈ cfg.selectedFolds → foldScores i = Except.error e →
      k_fold_inf_E cfg foldScores (pre ++ (i, f) :: post) scores =
        Except.error e := by
  intro pre
  induction pre with
  | nil =>
    intro i f post scores _ hi hfail
    simp only [List.nil_append, k_fold_inf_E, if_pos hi]
    rw [hfail]
  | cons q rest ih =>
    intro i f post scores h1 hi hfail
    obtain ⟨j, g⟩ := q
    by_cases hj : j ∈ cfg.selectedFolds
    · have hjok := h1 (j, g) (List.Mem.head _) hj
      cases hjb : foldScores j with
      | error e2 => rw [hjb] at hjok; simp [Except.toBool] at hjok
      | ok ss =>
        simp only [List.cons_append, k_fold_inf_E, if_pos hj, hjb]
        exact ih i f post (scores ++ ss)
          (fun y hy => h1 y (List.Mem.tail _ hy)) hi hfail
    · simp only [List.cons_append, k_fold_inf_E, if_neg hj]
      exact ih i f post scores (fun y hy => h1 y (List.Mem.tail _ hy)) hi hfail

/-- C5 (confirmed): neither source file handles exceptions, so an error
raised while processing a fold (k_fold, k_fold_inf) or an image inside
validation (validate, validate_inf) propagates out of the call as that
very error: once the failing image or fold is reached — every earlier
step having succeeded — the call returns the error and no list of
partial per-image or per-fold results survives; nothing is retried or
skipped. For k_fold the failing guarded fold is reached either when
the early-return condition is off, or, in the early-return
configurations, when it is the first guarded fold. -/
theorem orchestration_error_propagation {ε : Type}
    (step : Option ℚ → ℕ → Except ε (ℚ × Option ℚ))
    (vstep : ℕ → Except ε (ℚ × ℚ))
    (foldBody : ℕ → Except ε ℚ) (foldScores : ℕ → Except ε (List ℚ))
    (cfg : KConfig) (e : ε) :
    (∀ (pre : List ℕ) (gt gt2 : Option ℚ) (img : ℕ) (post : List ℕ),
        viState step gt pre = Except.ok gt2 →
        step gt2 img = Except.error e →
        validate_inf_E step gt (pre ++ img :: post) = Except.error e) ∧
    (∀ (pre : List ℕ) (img : ℕ) (post : List ℕ),
        (∀ x ∈ pre, (vstep x).isOk) →
        vstep img = Except.error e →
        validate_E vstep (pre ++ img :: post) = Except.error e) ∧
    (cfg.logFolder ≠ none → cfg.selectedFolds.length ≠ 1 →
      ∀ (pre : List (ℕ × ℕ)) (i f : ℕ) (post : List (ℕ × ℕ)) (cvs : List ℚ),
        (∀ q ∈ pre, q.1 ∈ cfg.selectedFolds → (foldBody q.1).isOk) →
        i ∈ cfg.selectedFolds → foldBody i = Except.error e →
        k_fold_E cfg foldBody (pre ++ (i, f) :: post) cvs = Except.error e) ∧
    (∀ (pre : List (ℕ × ℕ)) (i f : ℕ) (post : List (ℕ × ℕ)) (cvs : List ℚ),
        (∀ q ∈ pre, q.1 ∉ cfg.selectedFolds) →
        i ∈ cfg.selectedFolds → foldBody i = Except.error e →
        k_fold_E cfg foldBody (pre ++ (i, f) :: post) cvs = Except.error e) ∧
    (∀ (pre : List (ℕ × ℕ)) (i f : ℕ) (post : List (ℕ × ℕ)) (scores : List ℚ),
        (∀ q ∈ pre, q.1 ∈ cfg.selectedFolds → (foldScores q.1).isOk) →
        i ∈ cfg.selectedFolds → foldScores i = Except.error e →
        k_fold_inf_E cfg foldScores (pre ++ (i, f) :: post) scores =
          Except.error e) :=
  ⟨validate_inf_E_error step e,
   validate_E_error vstep e,
   fun hlog hsel => k_fold_E_error cfg foldBody e hlog hsel,
   k_fold_E_error_first cfg foldBody e,
   k_fold_inf_E_error cfg foldScores e⟩

/-- Witness for C5: always-failing bodies with error handle 7 make
each of the four functions return error 7 on concrete inputs. -/
theorem orchestration_error_propagation_witness :
    validate_inf_E stepF none [5] = Except.error 7 ∧
    validate_E vstepF [5] = Except.error 7 ∧
    k_fold_E cfgA foldBodyF [(0, 4)] [] = Except.error 7 ∧
    k_fold_inf_E cfgA foldScoresF [(0, 4)] [] = Except.error 7 :=
  ⟨(orchestration_error_propagation stepF vstepF foldBodyF foldScoresF
      cfgA 7).1 [] none none 5 [] rfl rfl,
   (orchestration_error_propagation stepF vstepF foldBodyF foldScoresF
      cfgA 7).2.1 [] 5 [] (by simp) rfl,
   (orchestration_error_propagation stepF vstepF foldBodyF foldScoresF
      cfgA 7).2.2.1 (by decide) (by decide) [] 0 4 [] [] (by simp)
      (by decide) rfl,
   (orchestration_error_propagation stepF vstepF foldBodyF foldScoresF
      cfgA 7).2.2.2.2 [] 0 4 [] [] (by simp) (by decide) rfl⟩

end HubMap
